import Mathlib

/-!
Verification of the cha-regulation-app core against its specification.

The Python sources are shallowly embedded over `List Char` (one `Char` per
Unicode code point, matching Python's `str` length/indexing semantics).
Python string helpers (`strip`, `split`, `count`, `in`, `lower`) are
translated below.  `str.lower` is modelled as ASCII lowercasing (the corpus
text is Korean, which `lower` leaves unchanged); the regex character class
`\d` is modelled as ASCII digits and `\s` as ASCII whitespace.
-/

/-- Shorthand to write character-list text with string literals. -/
def chars (s : String) : List Char := s.data

/-- Python `str` whitespace (ASCII part of `\s`). -/
def isPySpace (c : Char) : Bool :=
  c = ' ' || c = '\t' || c = '\n' || c = '\r' || c = '\x0b' || c = '\x0c'

/-- Python `str.strip()`: drop whitespace from both ends. -/
def pyStrip (l : List Char) : List Char :=
  ((l.dropWhile isPySpace).reverse.dropWhile isPySpace).reverse

/-- Python `str.lower()` (ASCII approximation). -/
def pyLower (l : List Char) : List Char :=
  l.map Char.toLower

/-- Python `sub in s` substring test. -/
def pyContains : List Char → List Char → Bool
  | _, [] => true
  | [], _ :: _ => false
  | c :: s', w@(_ :: _) => w.isPrefixOf (c :: s') || pyContains s' w

/-- Single pass of Python's non-overlapping `str.count` scan for a
non-empty pattern: `skip` characters of an already-counted match remain to
be passed over before matching may resume. -/
def countOccsAux : List Char → List Char → Nat → Nat
  | [], _, _ => 0
  | c :: s', w, skip =>
    if 0 < skip then countOccsAux s' w (skip - 1)
    else if w.isPrefixOf (c :: s') then 1 + countOccsAux s' w (w.length - 1)
    else countOccsAux s' w 0

/-- Python `s.count(sub)`: non-overlapping occurrence count
(`s.count("") = len(s) + 1`). -/
def countOccs (s w : List Char) : Nat :=
  match w with
  | [] => s.length + 1
  | _ :: _ => countOccsAux s w 0

/-- Word accumulator for Python's whitespace `str.split()`. -/
def pySplitWsAux : List Char → List Char → List (List Char)
  | [], acc => if acc = [] then [] else [acc.reverse]
  | c :: rest, acc =>
    if isPySpace c then
      if acc = [] then pySplitWsAux rest [] else acc.reverse :: pySplitWsAux rest []
    else pySplitWsAux rest (c :: acc)

/-- Python `str.split()` with no argument: split on whitespace runs,
no empty words. -/
def pySplitWs (l : List Char) : List (List Char) :=
  pySplitWsAux l []

/-- Python `s.split(sep)` for a one-character separator, keeping empty
segments (`"".split(x) = [""]`). -/
def pySplitChar (sep : Char) : List Char → List (List Char)
  | [] => [[]]
  | c :: rest =>
    if c = sep then [] :: pySplitChar sep rest
    else (pySplitChar sep rest).modifyHead (c :: ·)

/-- Python `"\n".join(strs)`. -/
def joinNl : List (List Char) → List Char
  | [] => []
  | [x] => x
  | x :: y :: t => x ++ '\n' :: joinNl (y :: t)

/-- ASCII decimal digit (model of regex `\d`). -/
def isAsciiDigit (c : Char) : Bool :=
  '0' ≤ c && c ≤ '9'

/-!  ### parse_xml_to_json.py — clause extractor and corpus ingestion -/

/-- One extracted clause (source: dicts built in `extract_articles`). -/
structure Article where
  number : List Char
  title : List Char
  content : List Char
deriving Repr, DecidableEq, Inhabited

/-- Consume one or more leading digits; return them and the rest. -/
def parseDigits (l : List Char) : Option (List Char × List Char) :=
  let ds := l.takeWhile isAsciiDigit
  if ds = [] then none else some (ds, l.dropWhile isAsciiDigit)

/-- Model of the lazy `[\(（](.+?)[\)）]` tail of the article pattern:
the shortest non-empty run of non-newline characters followed by a closing
parenthesis (half- or full-width). -/
def grabTitle : List Char → Option (List Char)
  | [] => none
  | c :: rest =>
    if c = '\n' then none
    else
      match rest with
      | [] => none
      | d :: _ =>
        if d = ')' ∨ d = '）' then some [c]
        else (grabTitle rest).map (c :: ·)

/-- Model of `re.match(r"^(제\d+조(?:의\d+)?)\s*[\(（](.+?)[\)）]", para)`:
returns `(number, title)` on success. -/
def matchArticle (para : List Char) : Option (List Char × List Char) :=
  match para with
  | '제' :: rest =>
    match parseDigits rest with
    | none => none
    | some (ds, rest1) =>
      match rest1 with
      | '조' :: rest2 =>
        let (extra, rest3) :=
          match rest2 with
          | '의' :: r =>
            match parseDigits r with
            | some (ds2, r2) => ('의' :: ds2, r2)
            | none => (([] : List Char), rest2)
          | _ => (([] : List Char), rest2)
        let rest4 := rest3.dropWhile isPySpace
        match rest4 with
        | c :: rest5 =>
          if c = '(' ∨ c = '（' then
            match grabTitle rest5 with
            | some t => some ('제' :: ds ++ '조' :: extra, t)
            | none => none
          else none
        | [] => none
      | _ => none
  | _ => none

/-- The accumulator loop of `extract_articles`: `st` is the currently open
clause (`(number, title)` with its accumulated paragraphs), if any. -/
def extractLoop : List (List Char) → Option ((List Char × List Char) × List (List Char)) → List Article
  | [], none => []
  | [], some ((num, ti), txts) => [⟨num, ti, joinNl txts⟩]
  | p :: ps, st =>
    match matchArticle p with
    | some (num, ti) =>
      match st with
      | none => extractLoop ps (some ((num, ti), [p]))
      | some ((n0, t0), txts) =>
        ⟨n0, t0, joinNl txts⟩ :: extractLoop ps (some ((num, ti), [p]))
    | none =>
      match st with
      | none => extractLoop ps none
      | some (a, txts) => extractLoop ps (some (a, txts ++ [p]))

/-- `extract_articles(paragraphs)`. -/
def extract_articles (paragraphs : List (List Char)) : List Article :=
  extractLoop paragraphs none

/-- `Path(filename).stem`: file name without its final extension. -/
def pathStem (fname : List Char) : List Char :=
  let parts := pySplitChar '.' fname
  if parts.length ≤ 1 then fname
  else if parts.headD [] = [] ∧ parts.length = 2 then fname
  else joinWithDot parts.dropLast
where
  joinWithDot : List (List Char) → List Char
    | [] => []
    | [x] => x
    | x :: y :: t => x ++ '.' :: joinWithDot (y :: t)

/-- `re.sub(r"^\d+[-_]\d*[-_]*", "", name)`: strip a numeric prefix. -/
def stripNumPrefixName (name : List Char) : List Char :=
  let d1 := name.takeWhile isAsciiDigit
  if d1 = [] then name
  else
    match name.dropWhile isAsciiDigit with
    | c :: r =>
      if c = '-' ∨ c = '_' then
        (r.dropWhile isAsciiDigit).dropWhile (fun d => d = '-' || d = '_')
      else name
    | [] => name

/-- The domain-keyword alternation in `guess_regulation_name`. -/
def regKeywords : List (List Char) :=
  [chars "규정", chars "학칙", chars "내규", chars "지침", chars "요강", chars "세칙"]

/-- `guess_regulation_name(filename, paragraphs)`. -/
def guess_regulation_name (fname : List Char) (paragraphs : List (List Char)) : List Char :=
  let name := pyStrip ((stripNumPrefixName (pathStem fname)).map
    (fun c => if c = '_' then ' ' else c))
  match (paragraphs.take 10).find?
      (fun p => (regKeywords.any (fun k => pyContains p k)) && p.length < 50) with
  | some p => pyStrip p
  | none => if name ≠ [] then name else fname

/-- One corpus document record (source: the dict built in `parse_all_xml`). -/
structure Regulation where
  id : List Char
  filename : List Char
  name : List Char
  full_text : List Char
  articles : List Article
  article_count : Nat
  char_count : Nat
deriving Repr, DecidableEq, Inhabited

/-- `f"REG-{i:03d}"`. -/
def regId (i : Nat) : List Char :=
  chars "REG-" ++ (List.replicate (3 - (Nat.repr i).length) '0') ++ (Nat.repr i).data

/-- The loop body of `parse_all_xml`: the record built for the `i`-th file
from its flattened paragraph list. -/
def make_regulation (i : Nat) (fname : List Char) (paragraphs : List (List Char)) : Regulation :=
  let articles := extract_articles paragraphs
  let full_text := joinNl paragraphs
  { id := regId i
    filename := fname
    name := guess_regulation_name fname paragraphs
    full_text := full_text
    articles := articles
    article_count := articles.length
    char_count := full_text.length }

/-!  ### app.py — corpus index and relevance search engine -/

/-- One search-index entry (source: the dict built in `build_search_index`). -/
structure IndexEntry where
  id : List Char
  name : List Char
  text_lower : List Char
  article_count : Nat
  char_count : Nat
deriving Repr, DecidableEq, Inhabited

/-- `build_search_index(regulations)`. -/
def build_search_index (regulations : List Regulation) : List IndexEntry :=
  regulations.map (fun reg =>
    { id := reg.id
      name := reg.name
      text_lower := pyLower reg.full_text
      article_count := reg.article_count
      char_count := reg.char_count })

/-- The per-word contribution to a document's score in `keyword_search`:
the occurrence count, plus 10 when the word occurs at all and also appears
in the lowercased display name. -/
def wordScore (entry : IndexEntry) (word : List Char) : Nat :=
  let count := countOccs entry.text_lower word
  if 0 < count then
    count + (if pyContains (pyLower entry.name) word then 10 else 0)
  else 0

/-- The whole-document score in `keyword_search`: the accumulated sum of
per-word contributions. -/
def docScore (entry : IndexEntry) (queryWords : List (List Char)) : Nat :=
  (queryWords.map (wordScore entry)).sum

/-- One ranked search result (source: the dict `{"regulation": regulations[i],
"score": score}`; `pos` records `i`, the corpus position, so that the
original-corpus-order tie-break is expressible). -/
structure SearchResult where
  pos : Nat
  regulation : Regulation
  score : Nat
deriving Repr, DecidableEq, Inhabited

/-- Stable insertion for a descending sort: `x` is placed before the first
element whose key is strictly smaller, after all elements with a key that is
greater or equal. -/
def insertDesc (key : α → Nat) (x : α) : List α → List α
  | [] => [x]
  | h :: t => if key h ≤ key x then x :: h :: t else h :: insertDesc key x t

/-- Model of Python's stable `list.sort(key=..., reverse=True)`:
descending by key, elements with equal keys keeping their original order. -/
def sortDesc (key : α → Nat) (l : List α) : List α :=
  l.foldr (insertDesc key) []

/-- The scored, score-positive result list of `keyword_search`, in corpus
order (the loop body before sorting). -/
def scoreEntries (queryWords : List (List Char)) (index : List IndexEntry)
    (regulations : List Regulation) : List SearchResult :=
  index.enum.filterMap (fun ie =>
    if 0 < docScore ie.2 queryWords then
      some ⟨ie.1, regulations.getD ie.1 default, docScore ie.2 queryWords⟩
    else none)

/-- `keyword_search(query, index, regulations, top_k=10)`. -/
def keyword_search (query : List Char) (index : List IndexEntry)
    (regulations : List Regulation) (top_k : Nat := 10) : List SearchResult :=
  (sortDesc (fun r => r.score) (scoreEntries (pySplitWs (pyLower query)) index regulations)).take top_k

/-- One ranked clause (source: the dict `{**article, "score": score}`; `pos`
records the clause's position so the original-clause-order tie-break is
expressible). -/
structure ScoredArticle where
  pos : Nat
  article : Article
  score : Nat
deriving Repr, DecidableEq, Inhabited

/-- The per-clause score of `find_relevant_articles`: the summed occurrence
counts of the query words in the clause's lowercased content (no name
bonus). -/
def articleScore (queryWords : List (List Char)) (article : Article) : Nat :=
  (queryWords.map (fun w => countOccs (pyLower article.content) w)).sum

/-- `find_relevant_articles(regulation, query)`: per-clause occurrence-sum
scoring (no name bonus), positives only, stable descending sort, top 10. -/
def find_relevant_articles (regulation : Regulation) (query : List Char) : List ScoredArticle :=
  (sortDesc (fun a => a.score)
    (regulation.articles.enum.filterMap (fun ia =>
      if 0 < articleScore (pySplitWs (pyLower query)) ia.2 then
        some ⟨ia.1, ia.2, articleScore (pySplitWs (pyLower query)) ia.2⟩
      else none))).take 10

/-!  ### hwpml_exporter.py — document synthesizer and reverse parser -/

/-- An `xml.etree.ElementTree` element: tag, attributes in insertion order,
optional text, ordered children. -/
inductive XmlNode where
  | elem (tag : String) (attrs : List (String × String)) (text : Option (List Char))
      (children : List XmlNode)

/-- The children of an element. -/
def XmlNode.children : XmlNode → List XmlNode
  | .elem _ _ _ cs => cs

/-- The attribute list of an element. -/
def XmlNode.attrList : XmlNode → List (String × String)
  | .elem _ as _ _ => as

/-- Look up a declared attribute of an element. -/
def attrOf (n : XmlNode) (key : String) : Option String :=
  n.attrList.lookup key

/-- The `CharShape` declared on a paragraph's first `TEXT` run. -/
def paraCharShape (p : XmlNode) : Option String :=
  match p.children with
  | c :: _ => c.attrList.lookup "CharShape"
  | [] => none

/-- `x` occurs in the element tree `t` (as `t` itself or nested below it). -/
inductive SubNode : XmlNode → XmlNode → Prop where
  | refl (t : XmlNode) : SubNode t t
  | step {x c t : XmlNode} (hc : c ∈ t.children) (h : SubNode x c) : SubNode x t

/-- `_make_paragraph(section, text, charshape, parashape)` (the appended node). -/
def make_paragraph_node (text : List Char) (charshape parashape : String) : XmlNode :=
  .elem "P" [("ParaShape", parashape), ("Style", "0")] none
    [.elem "TEXT" [("CharShape", charshape)] none
      [.elem "CHAR" [] (some text) []]]

/-- `_make_empty_para(section)` (the appended node). -/
def make_empty_para_node : XmlNode :=
  .elem "P" [("ParaShape", "0"), ("Style", "0")] none
    [.elem "TEXT" [("CharShape", "0")] none []]

/-- The attribute list shared by table cells in `_make_table`. -/
def make_cell_attrs (ci ri w : Nat) : List (String × String) :=
  [("ColAddr", Nat.repr ci), ("RowAddr", Nat.repr ri),
   ("ColSpan", "1"), ("RowSpan", "1"), ("Width", Nat.repr w)]

/-- A one-line cell sub-paragraph in `_make_table`. -/
def make_cell_line (charshape : String) (line : List Char) : XmlNode :=
  .elem "P" [("ParaShape", "0"), ("Style", "0")] none
    [.elem "TEXT" [("CharShape", charshape)] none
      [.elem "CHAR" [] (some line) []]]

/-- The `TABLE` element built by `_make_table(section, headers, rows,
col_widths)`: `RowCount` is the data row count plus the header row,
column widths default to an equal split of 16000. -/
def make_table_node (headers : List (List Char)) (rows : List (List (List Char)))
    (col_widths : Option (List Nat)) : XmlNode :=
  let num_cols := headers.length
  let num_rows := rows.length + 1
  let widths := col_widths.getD (List.replicate num_cols (16000 / num_cols))
  let headerRow : XmlNode :=
    .elem "ROW" [] none (headers.enum.map (fun ch =>
      .elem "CELL" (make_cell_attrs ch.1 0 (widths.getD ch.1 0) ++ [("Header", "true")]) none
        [.elem "PARALIST" [] none [make_cell_line "3" ch.2]]))
  let dataRows : List XmlNode :=
    rows.enum.map (fun rr =>
      .elem "ROW" [] none (rr.2.enum.map (fun cc =>
        .elem "CELL" (make_cell_attrs cc.1 (rr.1 + 1) (widths.getD cc.1 0)) none
          [.elem "PARALIST" [] none
            ((if cc.2 ≠ [] then pySplitChar '\n' cc.2 else [[]]).map (make_cell_line "0"))])))
  .elem "TABLE"
    [("RowCount", Nat.repr num_rows), ("ColCount", Nat.repr num_cols),
     ("CellSpacing", "0"), ("BorderFill", "1")] none (headerRow :: dataRows)

/-- The paragraph `_make_table` appends to the section (a `P` wrapping a
`TEXT` wrapping the `TABLE`). -/
def make_table_para (headers : List (List Char)) (rows : List (List (List Char)))
    (col_widths : Option (List Nat)) : XmlNode :=
  .elem "P" [("ParaShape", "0"), ("Style", "0")] none
    [.elem "TEXT" [("CharShape", "0")] none [make_table_node headers rows col_widths]]

/-- One `FONTFACE` group of `_build_head`. -/
def make_fontface (lang : String) : XmlNode :=
  .elem "FONTFACE" [("Lang", lang), ("Count", "2")] none
    [.elem "FONT" [("Id", "0"), ("Name", "맑은 고딕"), ("Type", "ttf")] none [],
     .elem "FONT" [("Id", "1"), ("Name", "맑은 고딕"), ("Type", "ttf")] none []]

/-- One `CHARSHAPE` entry of `_build_head`. -/
def make_charshape (id : String) (bold : Bool) (fontid : String) (size : Nat) : XmlNode :=
  .elem "CHARSHAPE" ([("Id", id)] ++ (if bold then [("Bold", "true")] else [])) none
    [.elem "FONTID" [("Hangul", fontid), ("Latin", fontid), ("Hanja", fontid)] none [],
     .elem "RATIO" [("Hangul", "100"), ("Latin", "100"), ("Hanja", "100")] none [],
     .elem "SIZE" [("Hangul", Nat.repr size), ("Latin", Nat.repr size),
                   ("Hanja", Nat.repr size)] none []]

/-- `_build_head(root, title)`: document summary, fonts, character shapes
and paragraph shapes (the fixed style table). `headDate` stands for the
impure `datetime.now().strftime("%Y년 %m월 %d일")`. -/
def buildHead (title headDate : List Char) : XmlNode :=
  .elem "HEAD" [("SecCnt", "1")] none
    [.elem "DOCSUMMARY" [] none
      [.elem "TITLE" [] (some title) [],
       .elem "AUTHOR" [] (some (chars "CHA 규정 혁신 어시스턴트")) [],
       .elem "DATE" [] (some headDate) []],
     .elem "MAPPINGTABLE" [] none
      [.elem "FACENAMELIST" [] none
        [make_fontface "Hangul", make_fontface "Latin",
         make_fontface "Hanja", make_fontface "Symbol"],
       .elem "CHARSHAPELIST" [] none
        [make_charshape "0" false "0" 1000,
         make_charshape "1" true "1" 1600,
         make_charshape "2" true "0" 1300,
         make_charshape "3" true "0" 1000,
         make_charshape "4" false "0" 900],
       .elem "PARASHAPELIST" [] none
        [.elem "PARASHAPE" [("Id", "0")] none
          [.elem "LINESPACING" [("Type", "Percent"), ("Value", "160")] none []],
         .elem "PARASHAPE" [("Id", "1"), ("Align", "Center")] none
          [.elem "LINESPACING" [("Type", "Percent"), ("Value", "130")] none [],
           .elem "MARGIN" [("Bottom", "400")] none []],
         .elem "PARASHAPE" [("Id", "2")] none
          [.elem "LINESPACING" [("Type", "Percent"), ("Value", "150")] none [],
           .elem "MARGIN" [("Top", "300"), ("Bottom", "100")] none []]]]]

/-- One before/after amendment row (`{"current": ..., "revised": ...}`). -/
structure AmendPair where
  current : List Char
  revised : List Char
deriving Repr, DecidableEq, Inhabited

/-- The fixed metadata field order of `create_amendment_doc`. -/
def amendFieldMap : List (String × List Char) :=
  [("background", chars "개정 배경"),
   ("core_content", chars "핵심 내용"),
   ("related_regs", chars "관련 규정"),
   ("department", chars "주관 부서"),
   ("cooperating", chars "협조 부서"),
   ("schedule", chars "예상 일정"),
   ("target", chars "시행 목표")]

/-- The comparison-table headers of `create_amendment_doc`. -/
def amendHeaders : List (List Char) :=
  [chars "현    행", chars "개  정  안"]

/-- The metadata-summary block of `create_amendment_doc`: heading and table
emitted only when the metadata dict, resp. its populated field list, is
non-empty. -/
def amendMetaBlock (metadata : List (String × List Char)) : List XmlNode :=
  let summary_rows : List (List (List Char)) :=
    amendFieldMap.filterMap (fun kl =>
      match metadata.lookup kl.1 with
      | some v => if v ≠ [] then some [kl.2, v] else none
      | none => none)
  if metadata ≠ [] then
    [make_paragraph_node (chars "■ 개정 기획안 요약") "2" "2"] ++
    (if summary_rows ≠ [] then
      [make_table_para [chars "항목", chars "내용"] summary_rows (some [3000, 13000]),
       make_empty_para_node]
     else [])
  else []

/-- The body-section contents of `create_amendment_doc`, in append order:
title block, optional metadata summary, comparison table, boilerplate
closing clauses, disclaimer. -/
def amendSectionChildren (title : List Char) (amendment_rows : List AmendPair)
    (metadata : List (String × List Char)) (today : List Char) : List XmlNode :=
  [make_paragraph_node title "1" "1",
   make_paragraph_node (chars "작성일: " ++ today) "4" "0",
   make_paragraph_node (chars "작성: CHA 규정 혁신 어시스턴트 (AI 자동 생성 초안)") "4" "0",
   make_empty_para_node]
  ++ amendMetaBlock metadata ++
  [make_paragraph_node (chars "■ 신구대조문") "2" "2",
   make_table_para amendHeaders (amendment_rows.map (fun row => [row.current, row.revised]))
     (some [8000, 8000]),
   make_empty_para_node,
   make_paragraph_node (chars "■ 부칙") "2" "2",
   make_paragraph_node (chars "제1조 (시행일) 이 규정은 공포한 날부터 시행한다.") "0" "0",
   make_paragraph_node
     (chars "제2조 (경과조치) 이 규정 시행 당시 종전의 규정에 따라 재학 중인 학생에 대하여는 종전의 규정을 적용한다.") "0" "0",
   make_empty_para_node,
   make_paragraph_node
     (chars "※ 이 문서는 AI가 자동 생성한 초안입니다. 반드시 법무 검토 후 사용하시기 바랍니다.") "4" "0"]

/-- `create_amendment_doc(title, amendment_rows, metadata)`. `metadata` is
the metadata dict as an association list; `headDate`/`today` stand for the
two impure `datetime.now().strftime(...)` strings. -/
def create_amendment_doc (title : List Char) (amendment_rows : List AmendPair)
    (metadata : List (String × List Char)) (headDate today : List Char) : XmlNode :=
  .elem "HWPML" [("Version", "2.91"), ("SubVersion", "10.0.0.0"), ("Style", "export")] none
    [buildHead title headDate,
     .elem "BODY" [] none
      [.elem "SECTION" [("Id", "0")] none
        (amendSectionChildren title amendment_rows metadata today)]]

/-- `re.sub(r"\*\*(.*?)\*\*", r"\1", line)`, step 1: position of the
earliest closing `**` reachable without crossing a newline. -/
def findBoldCloseIdx : List Char → Option Nat
  | [] => none
  | c :: s' =>
    if ('*' :: '*' :: []).isPrefixOf (c :: s') then some 0
    else if c = '\n' then none
    else (findBoldCloseIdx s').map (· + 1)

/-- `re.sub(r"\*\*(.*?)\*\*", r"\1", line)`: drop each non-overlapping
lazily matched pair of `**` markers, keeping the enclosed text. -/
def removeBold : List Char → List Char
  | [] => []
  | c :: s' =>
    if ('*' :: '*' :: []).isPrefixOf (c :: s') then
      match findBoldCloseIdx (s'.drop 1) with
      | some j => (s'.drop 1).take j ++ removeBold ((s'.drop 1).drop (j + 2))
      | none => c :: removeBold s'
    else c :: removeBold s'
termination_by s => s.length
decreasing_by
  all_goals simp [List.length_drop]
  all_goals omega

/-- The body of the markdown re-flow loop in `create_analysis_doc`: the
paragraph (if any) emitted for one line of the analysis text. -/
def reflowPara (raw : List Char) : Option XmlNode :=
  let line := pyStrip raw
  if line = [] then some make_empty_para_node
  else if (chars "##").isPrefixOf line then
    some (make_paragraph_node (pyStrip (line.dropWhile (fun c => c = '#'))) "2" "2")
  else if (chars "- ").isPrefixOf line || (chars "* ").isPrefixOf line then
    some (make_paragraph_node (chars "  · " ++ line.drop 2) "0" "0")
  else if (chars "|").isPrefixOf line then none
  else some (make_paragraph_node (removeBold line) "0" "0")

/-- One related-regulation summary passed to `create_analysis_doc`. -/
structure RegInfo where
  name : List Char
  article_count : Nat
  score : Nat
deriving Repr, DecidableEq, Inhabited

/-- `create_analysis_doc(title, query, analysis_text, regulations)`. -/
def create_analysis_doc (title query analysis_text : List Char)
    (regulations : List RegInfo) (headDate today : List Char) : XmlNode :=
  .elem "HWPML" [("Version", "2.91"), ("SubVersion", "10.0.0.0"), ("Style", "export")] none
    [buildHead title headDate,
     .elem "BODY" [] none
      [.elem "SECTION" [("Id", "0")] none
        ([make_paragraph_node title "1" "1",
          make_paragraph_node (chars "작성일: " ++ today ++ chars "  |  검색어: " ++ query) "4" "0",
          make_empty_para_node,
          make_paragraph_node (chars "■ AI 분석 결과") "2" "2"]
         ++ (pySplitChar '\n' analysis_text).filterMap reflowPara
         ++ [make_empty_para_node]
         ++ (if regulations ≠ [] then
              [make_paragraph_node (chars "■ 관련 규정 목록") "2" "2",
               make_table_para [chars "규정명", chars "조문 수", chars "관련도"]
                 (regulations.map (fun r =>
                   [r.name, (Nat.repr r.article_count).data, (Nat.repr r.score).data]))
                 (some [9000, 3000, 4000])]
             else [])
         ++ [make_empty_para_node,
             make_paragraph_node
               (chars "※ 이 문서는 AI가 자동 생성한 분석 결과입니다. 참고 자료로만 활용하시기 바랍니다.") "4" "0"])]]

/-- The separator-line character class `[\s\-:]` of `parse_gpt_amendment`. -/
def isSepClass (c : Char) : Bool :=
  isPySpace c || c = '-' || c = ':'

/-- `re.match(r"^\|[\s\-:]+\|", line)`: a `|`, then at least one
whitespace/dash/colon, then another `|`. -/
def sepMatch (l : List Char) : Bool :=
  match l with
  | '|' :: rest =>
    !(rest.takeWhile isSepClass).isEmpty &&
      ((rest.dropWhile isSepClass).head? == some '|')
  | _ => false

/-- The first-cell header labels skipped by `parse_gpt_amendment`. -/
def curLabels : List (List Char) := [chars "현행", chars "현 행", chars "現行"]

/-- The second-cell header labels skipped by `parse_gpt_amendment`. -/
def revLabels : List (List Char) := [chars "개정안", chars "개정 안", chars "改正案"]

/-- The primary-strategy loop body of `parse_gpt_amendment`: the row (if
any) contributed by one line of the GPT text. -/
def rowOfLine (raw : List Char) : Option AmendPair :=
  let line := pyStrip raw
  if ¬ (['|'].isPrefixOf line) then none
  else if sepMatch line then none
  else
    let cells := (((pySplitChar '|' line).drop 1).dropLast).map pyStrip
    if 2 ≤ cells.length then
      let current := pyStrip (cells.getD 0 [])
      let revised := pyStrip (cells.getD 1 [])
      if current ∈ curLabels ∨ revised ∈ revLabels then none
      else if current ≠ [] ∨ revised ≠ [] then some ⟨current, revised⟩
      else none
    else none

/-- The fallback accumulation mode of `parse_gpt_amendment`. -/
inductive FbMode where
  | noMode
  | curMode
  | revMode
deriving Repr, DecidableEq

/-- One step of the fallback scan of `parse_gpt_amendment`: keyword lines
switch the mode, all other lines are appended (with a newline) to the
accumulator of the active mode. -/
def fbStep (st : FbMode × List Char × List Char) (line : List Char) : FbMode × List Char × List Char :=
  if pyContains line (chars "현행") && (pyContains line (chars ":") || pyContains line (chars "】")) then
    (FbMode.curMode, st.2.1, st.2.2)
  else if pyContains line (chars "개정") && (pyContains line (chars ":") || pyContains line (chars "】")) then
    (FbMode.revMode, st.2.1, st.2.2)
  else
    match st.1 with
    | FbMode.curMode => (st.1, st.2.1 ++ line ++ ['\n'], st.2.2)
    | FbMode.revMode => (st.1, st.2.1, st.2.2 ++ line ++ ['\n'])
    | FbMode.noMode => st

/-- The fallback strategy of `parse_gpt_amendment`: at most one pair, its
fields the trimmed accumulated before/after text. -/
def fallbackPairs (lines : List (List Char)) : List AmendPair :=
  let r := lines.foldl fbStep (FbMode.noMode, [], [])
  if r.2.1 ≠ [] ∨ r.2.2 ≠ [] then [⟨pyStrip r.2.1, pyStrip r.2.2⟩] else []

/-- `HwpmlExporter.parse_gpt_amendment(gpt_text)`. -/
def parse_gpt_amendment (gpt_text : List Char) : List AmendPair :=
  let lines := pySplitChar '\n' gpt_text
  let rows := lines.filterMap rowOfLine
  if rows = [] then fallbackPairs lines else rows

/-- A two-cell markdown table line `|cell1|cell2|` built from its cell
texts. -/
def mkRowLine (p : List Char × List Char) : List Char :=
  '|' :: p.1 ++ '|' :: p.2 ++ ['|']

/-- The pair `parse_gpt_amendment` is expected to emit for one two-cell row:
the trimmed cells, unless a cell carries a known header label or both cells
are blank. -/
def expectOne (p : List Char × List Char) : Option AmendPair :=
  if pyStrip (pyStrip p.1) ∈ curLabels ∨ pyStrip (pyStrip p.2) ∈ revLabels then none
  else if pyStrip (pyStrip p.1) ≠ [] ∨ pyStrip (pyStrip p.2) ≠ [] then
    some ⟨pyStrip (pyStrip p.1), pyStrip (pyStrip p.2)⟩
  else none

/-!  ## Helper lemmas -/

theorem docScore_nil (e : IndexEntry) : docScore e [] = 0 := rfl

theorem docScore_cons (e : IndexEntry) (w : List Char) (ws : List (List Char)) :
    docScore e (w :: ws) = wordScore e w + docScore e ws := by
  simp [docScore]

/-!  ## Claims -/

/-- C2: on the paragraph list `["총칙", "제1조(목적) 이 규정은 ...",
"이 조는 계속된다.", "제2조(적용범위) ..."]` the clause extractor yields
exactly the two expected clauses, and the ingested record's `full_text` is
the newline-join of all four paragraphs with `char_count` its length. -/
theorem clause_extractor_scenario :
    extract_articles
      [chars "총칙", chars "제1조(목적) 이 규정은 ...",
       chars "이 조는 계속된다.", chars "제2조(적용범위) ..."] =
      [⟨chars "제1조", chars "목적",
        chars "제1조(목적) 이 규정은 ...\n이 조는 계속된다."⟩,
       ⟨chars "제2조", chars "적용범위", chars "제2조(적용범위) ..."⟩]
    ∧ (make_regulation 1 (chars "reg.xml")
        [chars "총칙", chars "제1조(목적) 이 규정은 ...",
         chars "이 조는 계속된다.", chars "제2조(적용범위) ..."]).full_text =
      chars "총칙\n제1조(목적) 이 규정은 ...\n이 조는 계속된다.\n제2조(적용범위) ..."
    ∧ (make_regulation 1 (chars "reg.xml")
        [chars "총칙", chars "제1조(목적) 이 규정은 ...",
         chars "이 조는 계속된다.", chars "제2조(적용범위) ..."]).char_count =
      (chars "총칙\n제1조(목적) 이 규정은 ...\n이 조는 계속된다.\n제2조(적용범위) ...").length := by
  refine ⟨by decide, by decide, by decide⟩

/-- C6: every record built by corpus ingestion stores `char_count` equal to
the length of its stored `full_text` and `article_count` equal to the
length of its stored clause list. -/
theorem ingestion_count_invariants (i : Nat) (fname : List Char)
    (paragraphs : List (List Char)) :
    (make_regulation i fname paragraphs).char_count =
      (make_regulation i fname paragraphs).full_text.length
    ∧ (make_regulation i fname paragraphs).article_count =
      (make_regulation i fname paragraphs).articles.length :=
  ⟨rfl, rfl⟩

/-- C9: the `keyword_search` document score is additive over concatenation
of query word lists, and a repeated word contributes its per-word score
(count plus any name bonus) once per repetition. -/
theorem docScore_additive (e : IndexEntry) (ws₁ ws₂ : List (List Char)) (w : List Char) :
    docScore e (ws₁ ++ ws₂) = docScore e ws₁ + docScore e ws₂
    ∧ docScore e (w :: ws₁) = wordScore e w + docScore e ws₁ := by
  constructor
  · simp [docScore]
  · simp [docScore]

/-- C5: for every amendment payload with `N` comparison rows, the document
built by `create_amendment_doc` contains the comparison table element, whose
declared `RowCount` is `N + 1` and whose `ColCount` is `2`. -/
theorem amendment_table_row_count (title : List Char) (amendment_rows : List AmendPair)
    (metadata : List (String × List Char)) (headDate today : List Char) :
    SubNode
      (make_table_node amendHeaders (amendment_rows.map (fun row => [row.current, row.revised]))
        (some [8000, 8000]))
      (create_amendment_doc title amendment_rows metadata headDate today)
    ∧ attrOf
        (make_table_node amendHeaders (amendment_rows.map (fun row => [row.current, row.revised]))
          (some [8000, 8000])) "RowCount" = some (Nat.repr (amendment_rows.length + 1))
    ∧ attrOf
        (make_table_node amendHeaders (amendment_rows.map (fun row => [row.current, row.revised]))
          (some [8000, 8000])) "ColCount" = some "2" := by
  refine ⟨?_, ?_, ?_⟩
  · have h1 : SubNode
        (make_table_node amendHeaders (amendment_rows.map (fun row => [row.current, row.revised]))
          (some [8000, 8000]))
        (make_table_para amendHeaders (amendment_rows.map (fun row => [row.current, row.revised]))
          (some [8000, 8000])) :=
      SubNode.step (List.mem_cons_self _ _)
        (SubNode.step (List.mem_cons_self _ _) (SubNode.refl _))
    have h2 : SubNode
        (make_table_node amendHeaders (amendment_rows.map (fun row => [row.current, row.revised]))
          (some [8000, 8000]))
        (XmlNode.elem "SECTION" [("Id", "0")] none
          (amendSectionChildren title amendment_rows metadata today)) := by
      refine SubNode.step ?_ h1
      show _ ∈ amendSectionChildren title amendment_rows metadata today
      unfold amendSectionChildren
      refine List.mem_append.mpr (Or.inr ?_)
      exact List.mem_cons.mpr (Or.inr (List.mem_cons_self _ _))
    have h3 : SubNode
        (make_table_node amendHeaders (amendment_rows.map (fun row => [row.current, row.revised]))
          (some [8000, 8000]))
        (XmlNode.elem "BODY" [] none
          [XmlNode.elem "SECTION" [("Id", "0")] none
            (amendSectionChildren title amendment_rows metadata today)]) :=
      SubNode.step (List.mem_cons_self _ _) h2
    exact SubNode.step (List.mem_cons.mpr (Or.inr (List.mem_cons_self _ _))) h3
  · simp [attrOf, make_table_node, XmlNode.attrList]
  · rfl

theorem countOccsAux_eq_zero (d : Char) (w' : List Char) :
    ∀ s skip, pyContains s (d :: w') = false → countOccsAux s (d :: w') skip = 0 := by
  intro s
  induction s with
  | nil => intro skip h; rfl
  | cons c s' ih =>
    intro skip h
    have h' : (d :: w').isPrefixOf (c :: s') = false ∧ pyContains s' (d :: w') = false := by
      simpa [pyContains] using h
    simp [countOccsAux, h'.1, ih _ h'.2]

theorem countOccs_eq_zero (w : List Char) :
    ∀ s, pyContains s w = false → countOccs s w = 0 := by
  cases w with
  | nil => intro s h; simp [pyContains] at h
  | cons d w' => intro s h; exact countOccsAux_eq_zero d w' s 0 h

theorem wordScore_eq_zero {e : IndexEntry} {w : List Char}
    (h : pyContains e.text_lower w = false) : wordScore e w = 0 := by
  simp [wordScore, countOccs_eq_zero w _ h]

theorem docScore_eq_zero {e : IndexEntry} {ws : List (List Char)}
    (h : ∀ w ∈ ws, pyContains e.text_lower w = false) : docScore e ws = 0 := by
  rw [docScore]
  refine List.sum_eq_zero ?_
  intro x hx
  obtain ⟨w, hw, rfl⟩ := List.mem_map.mp hx
  exact wordScore_eq_zero (h w hw)

theorem scoreEntries_eq_nil {ws : List (List Char)} {index : List IndexEntry}
    {regs : List Regulation} (h : ∀ e ∈ index, docScore e ws = 0) :
    scoreEntries ws index regs = [] := by
  rw [scoreEntries, List.filterMap_eq_nil_iff]
  intro a ha
  have he : a.2 ∈ index := by
    have hmap := List.enum_map_snd index
    exact hmap ▸ List.mem_map_of_mem Prod.snd ha
  simp [h a.2 he]

/-- C7: `keyword_search` with the empty query returns the empty list, and so
does `keyword_search` with a query none of whose words occurs in any indexed
document's lowercased full text; neither case is an error. -/
theorem empty_and_no_match_queries (index : List IndexEntry) (regulations : List Regulation)
    (top_k : Nat) (query : List Char)
    (h : ∀ w ∈ pySplitWs (pyLower query), ∀ e ∈ index, pyContains e.text_lower w = false) :
    keyword_search [] index regulations top_k = []
    ∧ keyword_search query index regulations top_k = [] := by
  constructor
  · have h0 : pySplitWs (pyLower ([] : List Char)) = [] := rfl
    rw [keyword_search, h0, scoreEntries_eq_nil (fun e _ => docScore_nil e)]
    simp [sortDesc]
  · rw [keyword_search, scoreEntries_eq_nil
      (fun e he => docScore_eq_zero (fun w hw => h w hw e he))]
    simp [sortDesc]

/-- C7 witness: a one-document corpus where neither the empty query nor an
absent token produces any result. -/
theorem empty_and_no_match_queries_witness :
    keyword_search [] [⟨chars "REG-001", chars "학칙", chars "본문 내용", 0, 5⟩] [default] 10 = []
    ∧ keyword_search (chars "zz_no_such_token")
        [⟨chars "REG-001", chars "학칙", chars "본문 내용", 0, 5⟩] [default] 10 = [] :=
  empty_and_no_match_queries
    [⟨chars "REG-001", chars "학칙", chars "본문 내용", 0, 5⟩] [default] 10
    (chars "zz_no_such_token") (by decide)

/-- C1 counterexample: an ingested document whose display name (derived
from the file name `abc.xml`) contains the query word while its full text
does not is scored 0 — `keyword_search` returns no result for it at all, so
its score carries no +10 contribution for that word. -/
theorem name_bonus_counterexample :
    (build_search_index [make_regulation 1 (chars "abc.xml") [chars "xyz"]]).map
        (fun e => (pyContains (pyLower e.name) (chars "abc"),
          countOccs e.text_lower (chars "abc"), wordScore e (chars "abc"))) =
      [(true, 0, 0)]
    ∧ keyword_search (chars "abc")
        (build_search_index [make_regulation 1 (chars "abc.xml") [chars "xyz"]])
        [make_regulation 1 (chars "abc.xml") [chars "xyz"]] 10 = [] := by
  decide

/-- C1 (amended): when a query word both occurs in the document's lowercased
full text and appears in the lowercased display name, its contribution is
its occurrence count plus exactly 10; in total the document score is at
least the summed occurrence counts plus 10 per such word. -/
theorem name_bonus_amended (e : IndexEntry) (ws : List (List Char)) (w : List Char)
    (hmem : w ∈ ws) (h1 : 0 < countOccs e.text_lower w)
    (h2 : pyContains (pyLower e.name) w = true) :
    wordScore e w = countOccs e.text_lower w + 10
    ∧ (ws.map (fun x => countOccs e.text_lower x)).sum
        + 10 * ws.countP
            (fun x => decide (0 < countOccs e.text_lower x) && pyContains (pyLower e.name) x)
        ≤ docScore e ws := by
  constructor
  · simp [wordScore, h1, h2]
  · clear hmem h1 h2
    induction ws with
    | nil => simp [docScore]
    | cons a t ih =>
      simp only [docScore, List.map_cons, List.sum_cons, List.countP_cons] at ih ⊢
      by_cases hx1 : 0 < countOccs e.text_lower a
      · by_cases hx2 : pyContains (pyLower e.name) a = true
        · have hw : wordScore e a = countOccs e.text_lower a + 10 := by
            simp [wordScore, hx1, hx2]
          have hif : (decide (0 < countOccs e.text_lower a) &&
              pyContains (pyLower e.name) a) = true := by simp [hx1, hx2]
          rw [hw, hif]
          simp only [if_true, eq_self_iff_true]
          simp
          omega
        · have hw : wordScore e a = countOccs e.text_lower a := by
            simp [wordScore, hx1, hx2]
          have hif : (decide (0 < countOccs e.text_lower a) &&
              pyContains (pyLower e.name) a) = false := by simp [hx2]
          rw [hw, hif]
          simp only [Bool.false_eq_true, if_false]
          omega
      · have hz : countOccs e.text_lower a = 0 := by omega
        have hw : wordScore e a = 0 := by simp [wordScore, hz]
        have hif : (decide (0 < countOccs e.text_lower a) &&
            pyContains (pyLower e.name) a) = false := by simp [hz]
        rw [hw, hif, hz]
        simp only [Bool.false_eq_true, if_false]
        omega

/-- C1 amended-claim witness: a concrete document containing the word twice
in its text and once in its name scores `2 + 10`. -/
theorem name_bonus_amended_witness :
    wordScore ⟨chars "REG-001", chars "AI 규정", chars "ai 연구 ai", 0, 8⟩ (chars "ai") =
      countOccs (chars "ai 연구 ai") (chars "ai") + 10
    ∧ (([chars "ai"].map (fun x => countOccs (chars "ai 연구 ai") x)).sum
        + 10 * [chars "ai"].countP
            (fun x => decide (0 < countOccs (chars "ai 연구 ai") x) &&
              pyContains (pyLower (chars "AI 규정")) x)
        ≤ docScore ⟨chars "REG-001", chars "AI 규정", chars "ai 연구 ai", 0, 8⟩ [chars "ai"]) :=
  name_bonus_amended ⟨chars "REG-001", chars "AI 규정", chars "ai 연구 ai", 0, 8⟩
    [chars "ai"] (chars "ai") (by decide) (by decide) (by decide)

theorem mem_insertDesc {α : Type} {key : α → Nat} {x y : α} {l : List α} :
    y ∈ insertDesc key x l ↔ y = x ∨ y ∈ l := by
  induction l with
  | nil => simp [insertDesc]
  | cons h t ih =>
    by_cases hc : key h ≤ key x
    · simp [insertDesc, hc]
    · simp [insertDesc, hc, ih]
      tauto

theorem mem_sortDesc {α : Type} {key : α → Nat} {y : α} {l : List α} :
    y ∈ sortDesc key l ↔ y ∈ l := by
  induction l with
  | nil => simp [sortDesc]
  | cons h t ih =>
    have hstep : sortDesc key (h :: t) = insertDesc key h (sortDesc key t) := rfl
    rw [hstep, mem_insertDesc, ih]
    simp

theorem pairwise_insertDesc {α : Type} {key pos : α → Nat} {x : α} {l : List α}
    (hl : l.Pairwise (fun a b => key b < key a ∨ (key a = key b ∧ pos a < pos b)))
    (hx : ∀ y ∈ l, pos x < pos y) :
    (insertDesc key x l).Pairwise
      (fun a b => key b < key a ∨ (key a = key b ∧ pos a < pos b)) := by
  induction l with
  | nil => simp [insertDesc]
  | cons h t ih =>
    rw [List.pairwise_cons] at hl
    obtain ⟨hh, ht⟩ := hl
    by_cases hc : key h ≤ key x
    · simp only [insertDesc, if_pos hc]
      refine List.Pairwise.cons ?_ (List.Pairwise.cons hh ht)
      intro z hz
      have hzk : key z ≤ key x := by
        rcases List.mem_cons.mp hz with rfl | hzt
        · exact hc
        · rcases hh z hzt with h1 | h2
          · omega
          · omega
      rcases Nat.lt_or_ge (key z) (key x) with hlt | hge
      · exact Or.inl hlt
      · exact Or.inr ⟨Nat.le_antisymm hge hzk, hx z hz⟩
    · simp only [insertDesc, if_neg hc]
      refine List.Pairwise.cons ?_ (ih ht (fun y hy => hx y (List.mem_cons_of_mem _ hy)))
      intro z hz
      rcases mem_insertDesc.mp hz with rfl | hzt
      · exact Or.inl (Nat.lt_of_not_le hc)
      · exact hh z hzt

theorem pairwise_sortDesc {α : Type} {key pos : α → Nat} {l : List α}
    (hl : l.Pairwise (fun a b => pos a < pos b)) :
    (sortDesc key l).Pairwise
      (fun a b => key b < key a ∨ (key a = key b ∧ pos a < pos b)) := by
  induction l with
  | nil => exact List.Pairwise.nil
  | cons h t ih =>
    rw [List.pairwise_cons] at hl
    exact pairwise_insertDesc (ih hl.2) (fun y hy => hl.1 y (mem_sortDesc.mp hy))

theorem enum_pairwise_fst {β : Type} (l : List β) :
    l.enum.Pairwise (fun a b => a.1 < b.1) := by
  have h := List.pairwise_lt_range l.length
  rw [← List.enum_map_fst l] at h
  exact List.pairwise_map.mp h

theorem pairwise_pos_filterMap_enum {β γ : Type} (posOf : γ → Nat)
    (f : (Nat × β) → Option γ) (hf : ∀ a r, f a = some r → posOf r = a.1) (l : List β) :
    (l.enum.filterMap f).Pairwise (fun a b => posOf a < posOf b) := by
  rw [List.pairwise_filterMap]
  refine (enum_pairwise_fst l).imp ?_
  intro a b hab x hx y hy
  rw [hf a x (Option.mem_def.mp hx), hf b y (Option.mem_def.mp hy)]
  exact hab

theorem mem_filterMap_prop {β γ : Type} {f : β → Option γ} {l : List β}
    {P : γ → Prop} (hf : ∀ a r, f a = some r → P r) : ∀ r ∈ l.filterMap f, P r := by
  intro r hr
  obtain ⟨a, _, h⟩ := List.mem_filterMap.mp hr
  exact hf a r h

theorem scoreEntries_score_pos (ws : List (List Char)) (index : List IndexEntry)
    (regs : List Regulation) : ∀ r ∈ scoreEntries ws index regs, 0 < r.score := by
  rw [scoreEntries]
  refine mem_filterMap_prop ?_
  intro a r h
  try dsimp only at h
  by_cases hs : 0 < docScore a.2 ws
  · rw [if_pos hs] at h
    have h' := Option.some.inj h
    subst h'
    exact hs
  · rw [if_neg hs] at h
    cases h

theorem scoreEntries_pairwise_pos (ws : List (List Char)) (index : List IndexEntry)
    (regs : List Regulation) :
    (scoreEntries ws index regs).Pairwise (fun a b => a.pos < b.pos) := by
  rw [scoreEntries]
  refine pairwise_pos_filterMap_enum (fun r : SearchResult => r.pos) _ ?_ index
  intro a r h
  try dsimp only at h
  by_cases hs : 0 < docScore a.2 ws
  · rw [if_pos hs] at h
    have h' := Option.some.inj h
    subst h'
    rfl
  · rw [if_neg hs] at h
    cases h

theorem articleEntries_score_pos (reg : Regulation) (query : List Char) :
    ∀ r ∈ reg.articles.enum.filterMap (fun ia =>
      if 0 < articleScore (pySplitWs (pyLower query)) ia.2 then
        some (⟨ia.1, ia.2, articleScore (pySplitWs (pyLower query)) ia.2⟩ : ScoredArticle)
      else none), 0 < r.score := by
  refine mem_filterMap_prop ?_
  intro a r h
  try dsimp only at h
  by_cases hs : 0 < articleScore (pySplitWs (pyLower query)) a.2
  · rw [if_pos hs] at h
    have h' := Option.some.inj h
    subst h'
    exact hs
  · rw [if_neg hs] at h
    cases h

theorem articleEntries_pairwise_pos (reg : Regulation) (query : List Char) :
    (reg.articles.enum.filterMap (fun ia =>
      if 0 < articleScore (pySplitWs (pyLower query)) ia.2 then
        some (⟨ia.1, ia.2, articleScore (pySplitWs (pyLower query)) ia.2⟩ : ScoredArticle)
      else none)).Pairwise (fun a b => a.pos < b.pos) := by
  refine pairwise_pos_filterMap_enum (fun r : ScoredArticle => r.pos) _ ?_ reg.articles
  intro a r h
  try dsimp only at h
  by_cases hs : 0 < articleScore (pySplitWs (pyLower query)) a.2
  · rw [if_pos hs] at h
    have h' := Option.some.inj h
    subst h'
    rfl
  · rw [if_neg hs] at h
    cases h

/-- C3: `keyword_search` returns only positive-score results, sorted by
non-increasing score with equal scores kept in original corpus order, at
most `top_k` of them; `find_relevant_articles` likewise returns only
positive-score clauses, at most 10, sorted by descending score with ties in
original clause order. -/
theorem search_ranking_properties (query : List Char) (index : List IndexEntry)
    (regulations : List Regulation) (top_k : Nat) (regulation : Regulation) :
    (keyword_search query index regulations top_k).Forall (fun r => 0 < r.score)
    ∧ (keyword_search query index regulations top_k).Pairwise
        (fun a b => b.score < a.score ∨ (a.score = b.score ∧ a.pos < b.pos))
    ∧ (keyword_search query index regulations top_k).length ≤ top_k
    ∧ (find_relevant_articles regulation query).Forall (fun a => 0 < a.score)
    ∧ (find_relevant_articles regulation query).Pairwise
        (fun a b => b.score < a.score ∨ (a.score = b.score ∧ a.pos < b.pos))
    ∧ (find_relevant_articles regulation query).length ≤ 10 := by
  refine ⟨?_, ?_, ?_, ?_, ?_, ?_⟩
  · rw [List.forall_iff_forall_mem]
    intro r hr
    exact scoreEntries_score_pos _ index regulations r
      (mem_sortDesc.mp ((List.take_sublist _ _).subset hr))
  · exact List.Pairwise.sublist (List.take_sublist _ _)
      (pairwise_sortDesc (scoreEntries_pairwise_pos _ index regulations))
  · exact List.length_take_le _ _
  · rw [List.forall_iff_forall_mem]
    intro r hr
    exact articleEntries_score_pos regulation query r
      (mem_sortDesc.mp ((List.take_sublist _ _).subset hr))
  · exact List.Pairwise.sublist (List.take_sublist _ _)
      (pairwise_sortDesc (articleEntries_pairwise_pos regulation query))
  · exact List.length_take_le _ _

theorem fbStep_fixed {line : List Char}
    (h1 : (pyContains line (chars "현행") &&
      (pyContains line (chars ":") || pyContains line (chars "】"))) = false)
    (h2 : (pyContains line (chars "개정") &&
      (pyContains line (chars ":") || pyContains line (chars "】"))) = false) :
    fbStep (FbMode.noMode, [], []) line = (FbMode.noMode, [], []) := by
  simp [fbStep, h1, h2]

theorem fallbackPairs_of_no_markers {lines : List (List Char)}
    (h : ∀ line ∈ lines,
      (pyContains line (chars "현행") &&
        (pyContains line (chars ":") || pyContains line (chars "】"))) = false
      ∧ (pyContains line (chars "개정") &&
        (pyContains line (chars ":") || pyContains line (chars "】"))) = false) :
    fallbackPairs lines = [] := by
  have hfold : lines.foldl fbStep (FbMode.noMode, [], []) = (FbMode.noMode, [], []) := by
    induction lines with
    | nil => rfl
    | cons l ls ih =>
      rw [List.foldl_cons,
        fbStep_fixed (h l (List.mem_cons_self _ _)).1 (h l (List.mem_cons_self _ _)).2]
      exact ih (fun x hx => h x (List.mem_cons_of_mem _ hx))
  simp [fallbackPairs, hfold]

/-- C8: on text none of whose (stripped) lines starts with the `|` delimiter
and none of whose lines contains the before keyword 현행 or the after
keyword 개정 together with a colon or a closing 】 bracket,
`parse_gpt_amendment` returns `[]`; and the keyword fallback never produces
more than one pair. -/
theorem parse_prose_empty (text : List Char)
    (h1 : ∀ line ∈ pySplitChar '\n' text, ['|'].isPrefixOf (pyStrip line) = false)
    (h2 : ∀ line ∈ pySplitChar '\n' text,
      (pyContains line (chars "현행") &&
        (pyContains line (chars ":") || pyContains line (chars "】"))) = false
      ∧ (pyContains line (chars "개정") &&
        (pyContains line (chars ":") || pyContains line (chars "】"))) = false) :
    parse_gpt_amendment text = []
    ∧ ∀ lines : List (List Char), (fallbackPairs lines).length ≤ 1 := by
  constructor
  · have hrows : (pySplitChar '\n' text).filterMap rowOfLine = [] := by
      rw [List.filterMap_eq_nil_iff]
      intro line hline
      rw [rowOfLine]
      simp [h1 line hline]
    rw [parse_gpt_amendment]
    simp only [hrows, if_pos rfl]
    exact fallbackPairs_of_no_markers h2
  · intro lines
    rw [fallbackPairs]
    split
    · simp
    · simp

/-- C8 witness: a concrete prose text parses to no pairs, and a concrete
keyword-marked text yields exactly one fallback pair. -/
theorem parse_prose_empty_witness :
    parse_gpt_amendment (chars "그냥 산문입니다.\n아무 표도 없어요.") = []
    ∧ (fallbackPairs [chars "현행:", chars "가", chars "개정:", chars "나"]).length ≤ 1 :=
  ⟨(parse_prose_empty (chars "그냥 산문입니다.\n아무 표도 없어요.") (by decide) (by decide)).1,
   (parse_prose_empty (chars "그냥 산문입니다.\n아무 표도 없어요.") (by decide) (by decide)).2
     [chars "현행:", chars "가", chars "개정:", chars "나"]⟩

theorem paraCharShape_make_paragraph (text : List Char) (cs ps : String) :
    paraCharShape (make_paragraph_node text cs ps) = some cs := rfl

/-- C10: in the analysis-document line re-flow, exactly the lines whose
stripped form starts with `##` become heading-styled (`CharShape` 2)
paragraphs, with all leading `#` stripped; a non-blank line starting with a
single `#` is emitted as an ordinary (`CharShape` 0) paragraph with the `#`
kept and only `**` markers removed. -/
theorem analysis_reflow_heading_rule (raw : List Char) :
    ((chars "##").isPrefixOf (pyStrip raw) = true →
      reflowPara raw = some (make_paragraph_node
        (pyStrip ((pyStrip raw).dropWhile (fun c => c = '#'))) "2" "2"))
    ∧ (∀ p, reflowPara raw = some p → paraCharShape p = some "2" →
        (chars "##").isPrefixOf (pyStrip raw) = true)
    ∧ ((pyStrip raw).head? = some '#' →
        (chars "##").isPrefixOf (pyStrip raw) = false →
        reflowPara raw = some (make_paragraph_node (removeBold (pyStrip raw)) "0" "0")) := by
  refine ⟨?_, ?_, ?_⟩
  · intro hp
    have hne : pyStrip raw ≠ [] := by
      intro h
      rw [h] at hp
      exact absurd hp (by decide)
    rw [reflowPara]
    rw [if_neg hne, if_pos hp]
  · intro p hp hcs
    by_cases hb : pyStrip raw = []
    · rw [reflowPara, if_pos hb] at hp
      rw [← Option.some.inj hp] at hcs
      exact absurd hcs (by decide)
    · by_cases h2 : (chars "##").isPrefixOf (pyStrip raw) = true
      · exact h2
      · exfalso
        rw [reflowPara, if_neg hb, if_neg h2] at hp
        by_cases h3 : ((chars "- ").isPrefixOf (pyStrip raw) ||
            (chars "* ").isPrefixOf (pyStrip raw)) = true
        · rw [if_pos h3] at hp
          rw [← Option.some.inj hp, paraCharShape_make_paragraph] at hcs
          exact absurd (Option.some.inj hcs) (by decide)
        · rw [if_neg h3] at hp
          by_cases h4 : (chars "|").isPrefixOf (pyStrip raw) = true
          · rw [if_pos h4] at hp
            cases hp
          · rw [if_neg h4] at hp
            rw [← Option.some.inj hp, paraCharShape_make_paragraph] at hcs
            exact absurd (Option.some.inj hcs) (by decide)
  · intro hh hnot
    cases hlist : pyStrip raw with
    | nil => rw [hlist] at hh; cases hh
    | cons c t =>
      rw [hlist] at hh
      have hc : c = '#' := Option.some.inj hh
      subst hc
      rw [reflowPara, hlist]
      rw [hlist] at hnot
      have h0 : ('#' :: t : List Char) ≠ [] := by simp
      have hd1 : ((chars "- ").isPrefixOf ('#' :: t) ||
          (chars "* ").isPrefixOf ('#' :: t)) = false := rfl
      have hd2 : (chars "|").isPrefixOf ('#' :: t) = false := rfl
      rw [if_neg h0]
      simp only [hnot, Bool.false_eq_true, if_false]
      simp only [hd1, Bool.false_eq_true, if_false]
      simp only [hd2, Bool.false_eq_true, if_false]

/-- C10 witness: an indented `## heading` line becomes a heading paragraph;
a `# ...` line stays an ordinary paragraph with its `#` kept. -/
theorem analysis_reflow_heading_rule_witness :
    reflowPara (chars "  ## 분석 결과") = some (make_paragraph_node
      (pyStrip ((pyStrip (chars "  ## 분석 결과")).dropWhile (fun c => c = '#'))) "2" "2")
    ∧ reflowPara (chars "# 참고") = some (make_paragraph_node
        (removeBold (pyStrip (chars "# 참고"))) "0" "0") :=
  ⟨(analysis_reflow_heading_rule (chars "  ## 분석 결과")).1 (by decide),
   (analysis_reflow_heading_rule (chars "# 참고")).2.2 (by decide) (by decide)⟩

theorem pyStrip_pipe (mid : List Char) :
    pyStrip ('|' :: mid ++ ['|']) = '|' :: mid ++ ['|'] := by
  have hsp : isPySpace '|' = false := rfl
  have hform : ('|' :: mid ++ ['|'] : List Char) = '|' :: (mid ++ ['|']) := by simp
  rw [pyStrip, hform, List.dropWhile_cons, hsp]
  simp only [Bool.false_eq_true, if_false]
  have h2 : ('|' :: (mid ++ ['|'])).reverse = '|' :: (mid.reverse ++ ['|']) := by
    simp
  rw [h2, List.dropWhile_cons, hsp]
  simp only [Bool.false_eq_true, if_false]
  simp

theorem pySplitChar_no_sep {sep : Char} {xs : List Char} (h : sep ∉ xs) :
    pySplitChar sep xs = [xs] := by
  induction xs with
  | nil => rfl
  | cons c t ih =>
    simp only [List.mem_cons, not_or] at h
    have hc : ¬(c = sep) := fun hcc => h.1 hcc.symm
    rw [pySplitChar, if_neg hc, ih h.2]
    rfl

theorem pySplitChar_append {sep : Char} {xs rest : List Char} (h : sep ∉ xs) :
    pySplitChar sep (xs ++ sep :: rest) = xs :: pySplitChar sep rest := by
  induction xs with
  | nil => simp [pySplitChar]
  | cons c t ih =>
    simp only [List.mem_cons, not_or] at h
    have hc : ¬(c = sep) := fun hcc => h.1 hcc.symm
    rw [List.cons_append, pySplitChar, if_neg hc, ih h.2]
    rfl

theorem takeWhile_all_append {p : Char → Bool} {run : List Char} {x : Char} {tail : List Char}
    (hrun : ∀ c ∈ run, p c = true) (hx : p x = false) :
    (run ++ x :: tail).takeWhile p = run ∧ (run ++ x :: tail).dropWhile p = x :: tail := by
  induction run with
  | nil => simp [List.takeWhile_cons, List.dropWhile_cons, hx]
  | cons c t ih =>
    have hc : p c = true := hrun c (List.mem_cons_self _ _)
    obtain ⟨ih1, ih2⟩ := ih (fun d hd => hrun d (List.mem_cons_of_mem _ hd))
    simp [List.takeWhile_cons, List.dropWhile_cons, hc, ih1, ih2]

theorem sepMatch_sep_row {m1 rest : List Char} (hm1 : m1 ≠ [])
    (hcls : ∀ c ∈ m1, isSepClass c = true) :
    sepMatch ('|' :: m1 ++ '|' :: rest) = true := by
  obtain ⟨ht, hd⟩ :=
    (takeWhile_all_append hcls (show isSepClass '|' = false from rfl) :
      (m1 ++ '|' :: rest).takeWhile isSepClass = m1
      ∧ (m1 ++ '|' :: rest).dropWhile isSepClass = '|' :: rest)
  simp [sepMatch, ht, hd, hm1]

theorem dropWhile_bad_head {a : List Char} (ha : '|' ∉ a)
    (hbad : ∃ c ∈ a, isSepClass c = false) (rest : List Char) :
    ((a ++ '|' :: rest).dropWhile isSepClass).head? ≠ some '|' := by
  induction a with
  | nil => simp at hbad
  | cons c t ih =>
    simp only [List.mem_cons, not_or] at ha
    by_cases hc : isSepClass c = true
    · rw [List.cons_append, List.dropWhile_cons, if_pos hc]
      refine ih ha.2 ?_
      obtain ⟨d, hd, hdf⟩ := hbad
      rcases List.mem_cons.mp hd with rfl | hdt
      · rw [hc] at hdf; cases hdf
      · exact ⟨d, hdt, hdf⟩
    · rw [List.cons_append, List.dropWhile_cons, if_neg hc]
      simp only [List.head?_cons, ne_eq, Option.some.injEq]
      exact fun hcp => ha.1 hcp.symm

theorem sepMatch_row_false {a : List Char} (ha : '|' ∉ a)
    (hgood : ¬(a ≠ [] ∧ ∀ c ∈ a, isSepClass c = true)) (rest : List Char) :
    sepMatch ('|' :: a ++ '|' :: rest) = false := by
  by_cases haempty : a = []
  · subst haempty
    simp [sepMatch, List.takeWhile_cons, show isSepClass '|' = false from rfl]
  · have hbad : ∃ c ∈ a, isSepClass c = false := by
      rcases not_and_or.mp hgood with h1 | h2
      · exact absurd haempty (not_not.mp (by simpa using h1))
      · push_neg at h2
        obtain ⟨c, hc, hcf⟩ := h2
        exact ⟨c, hc, by simpa using hcf⟩
    have hh := dropWhile_bad_head ha hbad rest
    simp only [sepMatch]
    have : (((a ++ '|' :: rest).dropWhile isSepClass).head? == some '|') = false := by
      simp only [beq_eq_false_iff_ne, ne_eq]
      exact hh
    simp [this]

theorem pySplitChar_cons_sep {sep : Char} {rest : List Char} :
    pySplitChar sep (sep :: rest) = [] :: pySplitChar sep rest := by
  simp [pySplitChar]

theorem rowOfLine_mkRow {a b : List Char} (ha : '|' ∉ a) (hb : '|' ∉ b)
    (hgood : ¬(a ≠ [] ∧ ∀ c ∈ a, isSepClass c = true)) :
    rowOfLine (mkRowLine (a, b)) = expectOne (a, b) := by
  have hform : mkRowLine (a, b) = '|' :: (a ++ '|' :: b) ++ ['|'] := by
    simp [mkRowLine]
  have hstrip : pyStrip (mkRowLine (a, b)) = mkRowLine (a, b) := by
    rw [hform]
    exact pyStrip_pipe _
  have hform2 : mkRowLine (a, b) = '|' :: (a ++ '|' :: (b ++ ['|'])) := by
    simp [mkRowLine]
  have hpre : (['|'].isPrefixOf (pyStrip (mkRowLine (a, b)))) = true := by
    rw [hstrip, hform2]
    simp [List.isPrefixOf]
  have hsep : sepMatch (pyStrip (mkRowLine (a, b))) = false := by
    rw [hstrip, show mkRowLine (a, b) = '|' :: a ++ '|' :: (b ++ ['|']) from by simp [mkRowLine]]
    exact sepMatch_row_false ha hgood (b ++ ['|'])
  have hsplit : pySplitChar '|' (pyStrip (mkRowLine (a, b))) = [[], a, b, []] := by
    rw [hstrip, hform2, pySplitChar_cons_sep, pySplitChar_append ha,
      show b ++ ['|'] = b ++ '|' :: [] from rfl, pySplitChar_append hb]
    rfl
  simp only [rowOfLine, hpre, hsep, hsplit, not_true, Bool.false_eq_true, if_false]
  simp [expectOne]

theorem rowOfLine_sep {m1 m2 : List Char} (hm1 : m1 ≠ [])
    (hcls : ∀ c ∈ m1, isSepClass c = true) :
    rowOfLine (mkRowLine (m1, m2)) = none := by
  have hstrip : pyStrip (mkRowLine (m1, m2)) = mkRowLine (m1, m2) := by
    rw [show mkRowLine (m1, m2) = '|' :: (m1 ++ '|' :: m2) ++ ['|'] from by simp [mkRowLine]]
    exact pyStrip_pipe _
  have hsep : sepMatch (pyStrip (mkRowLine (m1, m2))) = true := by
    rw [hstrip, show mkRowLine (m1, m2) = '|' :: m1 ++ '|' :: (m2 ++ ['|']) from by
      simp [mkRowLine]]
    exact sepMatch_sep_row hm1 hcls
  have hpre : (['|'].isPrefixOf (pyStrip (mkRowLine (m1, m2)))) = true := by
    rw [hstrip, show mkRowLine (m1, m2) = '|' :: (m1 ++ '|' :: (m2 ++ ['|'])) from by
      simp [mkRowLine]]
    simp [List.isPrefixOf]
  simp only [rowOfLine, hpre, hsep, not_true, if_false, if_true]

theorem pySplitChar_joinNl : ∀ {ls : List (List Char)}, ls ≠ [] →
    (∀ l ∈ ls, '\n' ∉ l) → pySplitChar '\n' (joinNl ls) = ls := by
  intro ls
  induction ls with
  | nil => intro h; cases h rfl
  | cons x t ih =>
    intro _ h
    cases t with
    | nil => exact pySplitChar_no_sep (h x (List.mem_cons_self _ _))
    | cons y t' =>
      have hjoin : joinNl (x :: y :: t') = x ++ '\n' :: joinNl (y :: t') := rfl
      rw [hjoin, pySplitChar_append (h x (List.mem_cons_self _ _)),
        ih (by simp) (fun l hl => h l (List.mem_cons_of_mem _ hl))]

/-- C4 counterexample: on a well-formed two-column markdown table whose
header labels are not among the fixed Korean/Hanja header strings, the
header row is NOT excluded — it is returned as a data pair. -/
theorem table_header_counterexample :
    parse_gpt_amendment (chars "| Old | New |\n|---|---|\n| a | b |") =
      [⟨chars "Old", chars "New"⟩, ⟨chars "a", chars "b"⟩]
    ∧ [(⟨chars "Old", chars "New"⟩ : AmendPair), ⟨chars "a", chars "b"⟩] ≠
      [⟨chars "a", chars "b"⟩] := by
  decide

/-- C4 (amended): on a well-formed two-column markdown table — first row,
separator row, then data rows, each `|cell|cell|` with no `|` or newline in
a cell, no row's first cell a non-empty run of separator characters, the
separator interiors non-empty runs of whitespace/dash/colon —
`parse_gpt_amendment` returns one trimmed `{current, revised}` pair per
remaining row in order, where the first row and every data row are kept
unless a cell equals one of the fixed header labels (which is how the
conventional header row is excluded) or both trimmed cells are empty;
provided at least one pair remains (otherwise the keyword fallback runs). -/
theorem parse_wellformed_table (hp : List Char × List Char) (m1 m2 : List Char)
    (rows : List (List Char × List Char)) (hm1 : m1 ≠ [])
    (hcls : ∀ c ∈ m1 ++ m2, isSepClass c = true ∧ c ≠ '\n')
    (hcells : ∀ p ∈ hp :: rows, '|' ∉ p.1 ∧ '|' ∉ p.2 ∧ '\n' ∉ p.1 ∧ '\n' ∉ p.2
      ∧ ¬(p.1 ≠ [] ∧ ∀ c ∈ p.1, isSepClass c = true))
    (hne : (hp :: rows).filterMap expectOne ≠ []) :
    parse_gpt_amendment
        (joinNl (mkRowLine hp :: mkRowLine (m1, m2) :: rows.map mkRowLine)) =
      (hp :: rows).filterMap expectOne := by
  have hnl : ∀ p : List Char × List Char, '\n' ∉ p.1 → '\n' ∉ p.2 →
      '\n' ∉ mkRowLine p := by
    intro p h1 h2 hmem
    rw [mkRowLine] at hmem
    rcases List.mem_append.mp hmem with hL | hR
    · rcases List.mem_append.mp hL with hL1 | hL2
      · rcases List.mem_cons.mp hL1 with he | hIn
        · exact absurd he (by decide)
        · exact h1 hIn
      · rcases List.mem_cons.mp hL2 with he | hIn
        · exact absurd he (by decide)
        · exact h2 hIn
    · rcases List.mem_cons.mp hR with he | hIn
      · exact absurd he (by decide)
      · exact absurd hIn (List.not_mem_nil _)
  have hsplit : pySplitChar '\n'
      (joinNl (mkRowLine hp :: mkRowLine (m1, m2) :: rows.map mkRowLine)) =
      mkRowLine hp :: mkRowLine (m1, m2) :: rows.map mkRowLine := by
    refine pySplitChar_joinNl (by simp) ?_
    intro l hl
    rcases List.mem_cons.mp hl with rfl | hl2
    · exact hnl hp (hcells hp (List.mem_cons_self _ _)).2.2.1
        (hcells hp (List.mem_cons_self _ _)).2.2.2.1
    rcases List.mem_cons.mp hl2 with rfl | hl3
    · intro hmem
      rw [mkRowLine] at hmem
      rcases List.mem_append.mp hmem with hL | hR
      · rcases List.mem_append.mp hL with hL1 | hL2
        · rcases List.mem_cons.mp hL1 with he | hIn
          · exact absurd he (by decide)
          · exact (hcls '\n' (List.mem_append_left _ hIn)).2 rfl
        · rcases List.mem_cons.mp hL2 with he | hIn
          · exact absurd he (by decide)
          · exact (hcls '\n' (List.mem_append_right _ hIn)).2 rfl
      · rcases List.mem_cons.mp hR with he | hIn
        · exact absurd he (by decide)
        · exact absurd hIn (List.not_mem_nil _)
    · obtain ⟨p, hp2, rfl⟩ := List.mem_map.mp hl3
      exact hnl p (hcells p (List.mem_cons_of_mem _ hp2)).2.2.1
        (hcells p (List.mem_cons_of_mem _ hp2)).2.2.2.1
  have hcls1 : ∀ c ∈ m1, isSepClass c = true :=
    fun c hc => (hcls c (List.mem_append_left _ hc)).1
  have hhp := hcells hp (List.mem_cons_self _ _)
  have hrows : (mkRowLine hp :: mkRowLine (m1, m2) :: rows.map mkRowLine).filterMap
      rowOfLine = (hp :: rows).filterMap expectOne := by
    rw [List.filterMap_cons, List.filterMap_cons,
      rowOfLine_mkRow hhp.1 hhp.2.1 hhp.2.2.2.2, rowOfLine_sep hm1 hcls1,
      List.filterMap_map]
    have hcongr : rows.filterMap (rowOfLine ∘ mkRowLine) = rows.filterMap expectOne := by
      refine List.filterMap_congr ?_
      intro p hp3
      have h := hcells p (List.mem_cons_of_mem _ hp3)
      exact rowOfLine_mkRow h.1 h.2.1 h.2.2.2.2
    rw [hcongr, List.filterMap_cons]
  rw [parse_gpt_amendment]
  simp only [hsplit, hrows]
  rw [if_neg hne]

/-- C4 amended-claim witness: a concrete table whose header carries the
conventional labels parses to exactly its data rows, trimmed. -/
theorem parse_wellformed_table_witness :
    parse_gpt_amendment
        (joinNl (mkRowLine (chars "현행", chars "개정안") ::
          mkRowLine (chars "---", chars "---") ::
          [(chars " 제1조 가 ", chars " 제1조 나 ")].map mkRowLine)) =
      ((chars "현행", chars "개정안") ::
        [(chars " 제1조 가 ", chars " 제1조 나 ")]).filterMap expectOne
    ∧ ((chars "현행", chars "개정안") ::
        [(chars " 제1조 가 ", chars " 제1조 나 ")]).filterMap expectOne =
      [⟨chars "제1조 가", chars "제1조 나"⟩] :=
  ⟨parse_wellformed_table (chars "현행", chars "개정안") (chars "---") (chars "---")
    [(chars " 제1조 가 ", chars " 제1조 나 ")] (by decide) (by decide) (by decide) (by decide),
   by decide⟩
